import Mathlib

/-!
Verification of the command-output validator in `pyats_ios_example.py`.

The script's only genuine logic lives in `VerifyInterfaceCountTestcase`:

* `extract_interface_count` runs
  `re.search(r'(?P<ethernet>\d+) Ethernet interfaces\r\n(?P<serial>\d+) Serial interfaces\r\n', result)`
  and converts the two captured digit groups with `int`.  An absent match
  aborts the test (modelled, following the spec, as a `ParseFailure` error).

* `verify_interface_count` counts the non-overlapping matches of
  `re.finditer(r'\r\nEthernet\d+/\d+\s+', result)` and
  `re.finditer(r'\r\nSerial\d+/\d+\s+', result)` and asserts each count
  equals the corresponding count extracted before (defaulting to 0).

Text is modelled as `List Char`.  For these particular patterns Python's
backtracking semantics collapse to maximal-munch: every `\d+` group is
followed by a non-digit literal (`' '` or `'/'`) and every trailing `\s+`
is final in its pattern, so shortening a greedy group can never make the
remainder match.  The functions below therefore use `takeWhile`/`dropWhile`
maximal scans, which agree with the regex engine on all inputs.
-/

/-- Python's `\s` class restricted to its ASCII members. -/
def isPySpace (c : Char) : Bool :=
  c == ' ' || c == '\t' || c == '\n' || c == '\r' || c == '\x0b' || c == '\x0c'

/-- `int` applied to a non-empty string of decimal digits. -/
def digitsToNat (ds : List Char) : Nat :=
  ds.foldl (fun n c => 10 * n + (c.toNat - 48)) 0

/-- Literal part of the summary regex after the first digit group. -/
def ethLit : List Char := " Ethernet interfaces\r\n".toList

/-- Literal part of the summary regex after the second digit group. -/
def serLit : List Char := " Serial interfaces\r\n".toList

/-- Literal head of the Ethernet listing pattern `\r\nEthernet\d+/\d+\s+`. -/
def ethIntfPat : List Char := "\r\nEthernet".toList

/-- Literal head of the Serial listing pattern `\r\nSerial\d+/\d+\s+`. -/
def serIntfPat : List Char := "\r\nSerial".toList

/-- One attempt of the summary regex at a fixed position: `\d+` then
`" Ethernet interfaces\r\n"` then `\d+` then `" Serial interfaces\r\n"`,
returning the two digit groups as numbers. -/
def tallyAt (s : List Char) : Option (Nat × Nat) :=
  let d1 := s.takeWhile Char.isDigit
  let r1 := s.dropWhile Char.isDigit
  if d1 = [] then none
  else if ethLit.isPrefixOf r1 then
    let r2 := r1.drop ethLit.length
    let d2 := r2.takeWhile Char.isDigit
    let r3 := r2.dropWhile Char.isDigit
    if d2 = [] then none
    else if serLit.isPrefixOf r3 then
      some (digitsToNat d1, digitsToNat d2)
    else none
  else none

/-- `re.search`: try the pattern at every position, leftmost first. -/
def tallySearch : List Char → Option (Nat × Nat)
  | [] => none
  | c :: cs =>
    match tallyAt (c :: cs) with
    | some v => some v
    | none => tallySearch cs

/-- Error taxonomy value for an absent summary pattern.  The source
accesses `match.group` unguarded, which raises on an absent match; the
spec reproduces this as an explicit parse-failure error. -/
inductive ParseFailure where
  | patternAbsent
deriving DecidableEq

/-- The parsing part of `extract_interface_count` (source lines 256-273):
search for the summary pattern and parse the two captured digit groups. -/
def extract_interface_count (result : List Char) : Except ParseFailure (Nat × Nat) :=
  match tallySearch result with
  | some v => Except.ok v
  | none => Except.error ParseFailure.patternAbsent

/-- Spec name for `extract_interface_count`. -/
def extractTally : List Char → Except ParseFailure (Nat × Nat) :=
  extract_interface_count

/-- One attempt of a listing pattern `name ++ \d+/\d+\s+` at a fixed
position.  On success, returns the length of the (greedy) match, which is
where `re.finditer` resumes scanning. -/
def intfLineAt (name : List Char) (s : List Char) : Option Nat :=
  if name.isPrefixOf s then
    let r1 := s.drop name.length
    let d1 := r1.takeWhile Char.isDigit
    let r2 := r1.dropWhile Char.isDigit
    if d1 = [] then none
    else
      match r2 with
      | '/' :: r3 =>
        let d2 := r3.takeWhile Char.isDigit
        let r4 := r3.dropWhile Char.isDigit
        if d2 = [] then none
        else
          let w := r4.takeWhile isPySpace
          if w = [] then none
          else some (name.length + d1.length + 1 + d2.length + w.length)
      | _ => none
  else none

/-- Fuel-indexed scan counting non-overlapping matches left to right,
resuming after each match (`re.finditer` followed by `len(tuple(...))`).
The fuel only serves structural recursion; `countMatches` supplies enough. -/
def countMatchesFuel (name : List Char) : Nat → List Char → Nat
  | 0, _ => 0
  | _, [] => 0
  | fuel + 1, c :: cs =>
    match intfLineAt name (c :: cs) with
    | some k => 1 + countMatchesFuel name fuel (cs.drop (k - 1))
    | none => countMatchesFuel name fuel cs

/-- Number of non-overlapping matches of the listing pattern headed by
`name` in `s`, scanned left to right. -/
def countMatches (name s : List Char) : Nat :=
  countMatchesFuel name s.length s

/-- The listing-derivation part of `verify_interface_count` (source lines
319 and 334): count Ethernet-pattern and Serial-pattern matches. -/
def extractListing (output : List Char) : Nat × Nat :=
  (countMatches ethIntfPat output, countMatches serIntfPat output)

/-- Outcome of the verification step.  The source uses two bare `assert`
statements; following the spec these are reproduced as mismatch values
that carry the listing-derived count and the tally count being compared. -/
inductive VerifyResult where
  | passed
  | ethMismatch (listing tally : Nat)
  | serMismatch (listing tally : Nat)
deriving DecidableEq

/-- The comparison performed by the two asserts of `verify_interface_count`
(source lines 327 and 342), on an already-extracted tally and listing:
the ethernet dimension is asserted first, then the serial dimension. -/
def validate (tally listing : Nat × Nat) : VerifyResult :=
  if listing.1 = tally.1 then
    if listing.2 = tally.2 then VerifyResult.passed
    else VerifyResult.serMismatch listing.2 tally.2
  else VerifyResult.ethMismatch listing.1 tally.1

/-- `verify_interface_count` (source lines 276-342) on the text of
`show ip interface brief`: count the ethernet matches, assert against the
tally, then count the serial matches and assert.  The two tally arguments
default to 0 in the source when the extraction step stored nothing. -/
def verify_interface_count (result : List Char)
    (ethernet_intf_count serial_intf_count : Nat) : VerifyResult :=
  if countMatches ethIntfPat result = ethernet_intf_count then
    if countMatches serIntfPat result = serial_intf_count then VerifyResult.passed
    else VerifyResult.serMismatch (countMatches serIntfPat result) serial_intf_count
  else VerifyResult.ethMismatch (countMatches ethIntfPat result) ethernet_intf_count

/-- Does the text contain a CR directly followed by an LF? -/
def hasCRLF : List Char → Bool
  | [] => false
  | [_] => false
  | c :: c2 :: rest => (c == '\x0d' && c2 == '\x0a') || hasCRLF (c2 :: rest)

/-- Interface media type appearing in the listing patterns. -/
inductive IntfKind where
  | eth
  | ser
deriving DecidableEq

/-- Interface-name word of each media type. -/
def kindText : IntfKind → List Char
  | IntfKind.eth => "Ethernet".toList
  | IntfKind.ser => "Serial".toList

/-- Listing-pattern literal head for a media type. -/
def patOf (k : IntfKind) : List Char := '\x0d' :: '\x0a' :: kindText k

/-- An interface line of the listing: kind, slot digits, port digits and
the whitespace that follows the interface name. -/
structure IntfLine where
  kind : IntfKind
  slot : List Char
  port : List Char
  ws : List Char

/-- The text of an interface line, including its leading CR-LF. -/
def lineText (l : IntfLine) : List Char :=
  patOf l.kind ++ (l.slot ++ (['/'] ++ (l.port ++ l.ws)))

/-- Well-formedness of an interface line: non-empty digit runs for slot
and port, and non-empty trailing whitespace containing no CR. -/
def goodLine (l : IntfLine) : Prop :=
  l.slot ≠ [] ∧ (∀ c ∈ l.slot, Char.isDigit c = true) ∧
  l.port ≠ [] ∧ (∀ c ∈ l.port, Char.isDigit c = true) ∧
  l.ws ≠ [] ∧ (∀ c ∈ l.ws, isPySpace c = true) ∧ (∀ c ∈ l.ws, c ≠ '\x0d')

/-- Build a listing text from interface lines, each followed by a filler
block of other content. -/
def renderItems : List (IntfLine × List Char) → List Char
  | [] => []
  | (l, b) :: rest => lineText l ++ (b ++ renderItems rest)

/-- Side conditions on the filler blocks: every line is well formed, no
filler contains a CR-LF (so it can neither contain nor abut a further
pattern occurrence), and every filler standing between two lines contains
a non-whitespace character (so a greedy match cannot run into the CR-LF
of the next line). -/
def sepOK (items : List (IntfLine × List Char)) : Prop :=
  (∀ x ∈ items, goodLine x.1 ∧ hasCRLF x.2 = false) ∧
  (∀ x ∈ items.dropLast, x.2.any (fun c => !isPySpace c) = true)

/-- Number of lines of a given media type among the items. -/
def countKind (k : IntfKind) : List (IntfLine × List Char) → Nat
  | [] => 0
  | (l, _) :: rest => (if l.kind = k then 1 else 0) + countKind k rest

/-- Spec-side occurrence predicate for a listing pattern, modelled from
the spec's words: the text contains, somewhere, a CR-LF, the interface
name, a non-empty digit run, a slash, a non-empty digit run, and
non-empty whitespace. -/
def SpecIntfOcc (name t : List Char) : Prop :=
  ∃ pre d1 d2 w rest, d1 ≠ [] ∧ (∀ c ∈ d1, Char.isDigit c = true) ∧
    d2 ≠ [] ∧ (∀ c ∈ d2, Char.isDigit c = true) ∧
    w ≠ [] ∧ (∀ c ∈ w, isPySpace c = true) ∧
    t = pre ++ (name ++ (d1 ++ (['/'] ++ (d2 ++ (w ++ rest)))))

/-! ### Facts about the listing-pattern scanner -/

/-- Spec-side occurrence predicate, modelled from the spec's words: the
text contains a line `<digits> Ethernet interfaces` immediately followed
(via CR-LF) by a line `<digits> Serial interfaces` (itself CR-LF
terminated, as in the source regex). -/
def SpecHasTally (t : List Char) : Prop :=
  ∃ pre d1 d2 rest, d1 ≠ [] ∧ (∀ c ∈ d1, Char.isDigit c = true) ∧
    d2 ≠ [] ∧ (∀ c ∈ d2, Char.isDigit c = true) ∧
    t = pre ++ (d1 ++ (ethLit ++ (d2 ++ (serLit ++ rest))))

/-- Observer: does a verification outcome report a serial-count mismatch? -/
def reportsSerialMismatch : VerifyResult → Bool
  | VerifyResult.serMismatch _ _ => true
  | _ => false

instance goodLine_decidable (l : IntfLine) : Decidable (goodLine l) := by
  unfold goodLine
  infer_instance

instance sepOK_decidable (items : List (IntfLine × List Char)) : Decidable (sepOK items) := by
  unfold sepOK
  infer_instance

/-! ### Generic list helpers -/

theorem takeWhile_append_all {p : Char → Bool} :
    ∀ {l : List Char} (r : List Char), (∀ c ∈ l, p c = true) →
      (l ++ r).takeWhile p = l ++ r.takeWhile p
  | [], r, _ => rfl
  | c :: l, r, h => by
    have hc : p c = true := h c (List.mem_cons_self c l)
    simp only [List.cons_append, List.takeWhile_cons_of_pos hc]
    have := takeWhile_append_all (l := l) r (fun x hx => h x (List.mem_cons_of_mem c hx))
    simp [this]

theorem dropWhile_append_all {p : Char → Bool} :
    ∀ {l : List Char} (r : List Char), (∀ c ∈ l, p c = true) →
      (l ++ r).dropWhile p = r.dropWhile p
  | [], r, _ => rfl
  | c :: l, r, h => by
    have hc : p c = true := h c (List.mem_cons_self c l)
    simp only [List.cons_append, List.dropWhile_cons_of_pos hc]
    exact dropWhile_append_all (l := l) r (fun x hx => h x (List.mem_cons_of_mem c hx))

theorem isPrefixOf_append_self : ∀ (l r : List Char), l.isPrefixOf (l ++ r) = true
  | [], _ => by simp [List.isPrefixOf]
  | c :: l, r => by
    simp only [List.cons_append, List.isPrefixOf_cons₂_self]
    exact isPrefixOf_append_self l r

theorem eq_append_of_isPrefixOf :
    ∀ {l s : List Char}, l.isPrefixOf s = true → s = l ++ s.drop l.length
  | [], s, _ => rfl
  | c :: l, [], h => by simp [List.isPrefixOf] at h
  | c :: l, b :: s, h => by
    simp only [List.isPrefixOf, Bool.and_eq_true, beq_iff_eq] at h
    obtain ⟨rfl, h2⟩ := h
    simpa using eq_append_of_isPrefixOf h2

theorem drop_takeWhile_length {p : Char → Bool} :
    ∀ (l : List Char), l.drop (l.takeWhile p).length = l.dropWhile p
  | [] => rfl
  | c :: l => by
    by_cases hc : p c = true
    · simp only [List.takeWhile_cons_of_pos hc, List.dropWhile_cons_of_pos hc,
        List.length_cons, List.drop_succ_cons]
      exact drop_takeWhile_length l
    · simp only [List.takeWhile_cons_of_neg (by simpa using hc),
        List.dropWhile_cons_of_neg (by simpa using hc), List.length_nil, List.drop_zero]

theorem drop_append_length (l r : List Char) (n : Nat) :
    (l ++ r).drop (l.length + n) = r.drop n := by
  rw [← List.drop_drop, List.drop_left]

theorem dropWhile_append_of_nonmatch {p : Char → Bool} :
    ∀ {b : List Char} (r : List Char), b.any (fun c => !p c) = true →
      (b ++ r).dropWhile p = b.dropWhile p ++ r
  | [], _, h => by simp at h
  | c :: b, r, h => by
    by_cases hc : p c = true
    · simp only [List.cons_append, List.dropWhile_cons_of_pos hc]
      apply dropWhile_append_of_nonmatch
      simp only [List.any_cons, hc] at h
      simpa using h
    · simp [List.dropWhile_cons_of_neg (by simpa using hc)]

/-! ### Character-class facts -/

theorem isPySpace_not_digit {c : Char} (h : isPySpace c = true) : Char.isDigit c = false := by
  simp only [isPySpace, Bool.or_eq_true, beq_iff_eq] at h
  rcases h with ((((rfl | rfl) | rfl) | rfl) | rfl) | rfl <;> decide

theorem digit_ne_cr {c : Char} (h : Char.isDigit c = true) : c ≠ '\x0d' := by
  intro hc; subst hc; exact absurd h (by decide)

theorem pyspace_ne_of_not {c : Char} (h : isPySpace c = true) : Char.isDigit c ≠ true := by
  simp [isPySpace_not_digit h]

/-! ### Facts about the summary-pattern matcher -/

theorem ethLit_cons : ethLit = ' ' :: "Ethernet interfaces\r\n".toList := by decide

theorem serLit_cons : serLit = ' ' :: "Serial interfaces\r\n".toList := by decide

theorem tallyAt_nil : tallyAt [] = none := rfl

/-- A full well-formed summary blob matches at its first character, and
the two groups are exactly the supplied digit runs. -/
theorem tallyAt_blob (d1 d2 suf : List Char)
    (h1 : d1 ≠ []) (h2 : ∀ c ∈ d1, Char.isDigit c = true)
    (h3 : d2 ≠ []) (h4 : ∀ c ∈ d2, Char.isDigit c = true) :
    tallyAt (d1 ++ (ethLit ++ (d2 ++ (serLit ++ suf)))) = some (digitsToNat d1, digitsToNat d2) := by
  have hnd : ¬ (Char.isDigit ' ' = true) := by decide
  have htake1 : (d1 ++ (ethLit ++ (d2 ++ (serLit ++ suf)))).takeWhile Char.isDigit = d1 := by
    rw [takeWhile_append_all _ h2, ethLit_cons, List.cons_append,
      List.takeWhile_cons_of_neg hnd, List.append_nil]
  have hdrop1 : (d1 ++ (ethLit ++ (d2 ++ (serLit ++ suf)))).dropWhile Char.isDigit
      = ethLit ++ (d2 ++ (serLit ++ suf)) := by
    rw [dropWhile_append_all _ h2, ethLit_cons, List.cons_append,
      List.dropWhile_cons_of_neg hnd, ← List.cons_append, ← ethLit_cons]
  have htake2 : (d2 ++ (serLit ++ suf)).takeWhile Char.isDigit = d2 := by
    rw [takeWhile_append_all _ h4, serLit_cons, List.cons_append,
      List.takeWhile_cons_of_neg hnd, List.append_nil]
  have hdrop2 : (d2 ++ (serLit ++ suf)).dropWhile Char.isDigit = serLit ++ suf := by
    rw [dropWhile_append_all _ h4, serLit_cons, List.cons_append,
      List.dropWhile_cons_of_neg hnd, ← List.cons_append, ← serLit_cons]
  unfold tallyAt
  simp only [htake1, hdrop1, if_neg h1, isPrefixOf_append_self, List.drop_left,
    htake2, hdrop2, if_neg h3]
  simp

/-- If the pattern matches at the current position, the search returns
that match. -/
theorem tallySearch_of_head {s : List Char} {v : Nat × Nat} (h : tallyAt s = some v) :
    tallySearch s = some v := by
  cases s with
  | nil => rw [tallyAt_nil] at h; cases h
  | cons c cs => simp [tallySearch, h]

/-- If the current position does not match, the search moves on. -/
theorem tallySearch_cons_none {c : Char} {cs : List Char} (h : tallyAt (c :: cs) = none) :
    tallySearch (c :: cs) = tallySearch cs := by
  simp [tallySearch, h]

/-- Scanning may skip any leading region in which no position matches. -/
theorem tallySearch_append_none :
    ∀ {l : List Char} {r : List Char},
      (∀ l1 l2, l = l1 ++ l2 → l2 ≠ [] → tallyAt (l2 ++ r) = none) →
      tallySearch (l ++ r) = tallySearch r
  | [], r, _ => rfl
  | c :: l, r, h => by
    have hc : tallyAt ((c :: l) ++ r) = none :=
      h [] (c :: l) rfl (by simp)
    rw [List.cons_append] at hc ⊢
    rw [tallySearch_cons_none hc]
    exact tallySearch_append_none (fun l1 l2 hl hne => h (c :: l1) l2 (by simp [hl]) hne)

/-- A successful position-match decomposes the text into the exact
concatenation shape of the summary pattern. -/
theorem tallyAt_some_decomp {s : List Char} {v : Nat × Nat} (h : tallyAt s = some v) :
    ∃ d1 d2 rest, d1 ≠ [] ∧ (∀ c ∈ d1, Char.isDigit c = true) ∧
      d2 ≠ [] ∧ (∀ c ∈ d2, Char.isDigit c = true) ∧
      s = d1 ++ (ethLit ++ (d2 ++ (serLit ++ rest))) ∧
      v = (digitsToNat d1, digitsToNat d2) := by
  unfold tallyAt at h
  set d1 := s.takeWhile Char.isDigit with hd1
  set r1 := s.dropWhile Char.isDigit with hr1
  by_cases h1 : d1 = []
  · rw [if_pos h1] at h; cases h
  · rw [if_neg h1] at h
    by_cases hp1 : ethLit.isPrefixOf r1 = true
    · rw [if_pos hp1] at h
      set r2 := r1.drop ethLit.length with hr2
      set d2 := r2.takeWhile Char.isDigit with hd2
      set r3 := r2.dropWhile Char.isDigit with hr3
      by_cases h2 : d2 = []
      · rw [if_pos h2] at h; cases h
      · rw [if_neg h2] at h
        by_cases hp2 : serLit.isPrefixOf r3 = true
        · rw [if_pos hp2] at h
          refine ⟨d1, d2, r3.drop serLit.length, h1, ?_, h2, ?_, ?_, ?_⟩
          · intro c hc
            exact List.mem_takeWhile_imp (hd1 ▸ hc)
          · intro c hc
            exact List.mem_takeWhile_imp (hd2 ▸ hc)
          · have hs : s = d1 ++ r1 := by
              rw [hd1, hr1, List.takeWhile_append_dropWhile]
            have hr1e : r1 = ethLit ++ r2 := by
              have := eq_append_of_isPrefixOf hp1
              rw [← hr2] at this
              exact this
            have hr2e : r2 = d2 ++ r3 := by
              rw [hd2, hr3, List.takeWhile_append_dropWhile]
            have hr3e : r3 = serLit ++ r3.drop serLit.length :=
              eq_append_of_isPrefixOf hp2
            rw [hs, hr1e, hr2e, hr3e]
            simp [List.append_assoc]
          · simp at h
            exact h.symm
        · rw [if_neg hp2] at h
          cases h
    · rw [if_neg hp1] at h
      cases h

/-- A successful search decomposes the whole text: some prefix, then the
summary pattern, then arbitrary remaining text. -/
theorem tallySearch_some_decomp :
    ∀ {s : List Char} {v : Nat × Nat}, tallySearch s = some v →
    ∃ pre d1 d2 rest, d1 ≠ [] ∧ (∀ c ∈ d1, Char.isDigit c = true) ∧
      d2 ≠ [] ∧ (∀ c ∈ d2, Char.isDigit c = true) ∧
      s = pre ++ (d1 ++ (ethLit ++ (d2 ++ (serLit ++ rest))))
  | [], v, h => by cases h
  | c :: cs, v, h => by
    rw [tallySearch] at h
    cases hat : tallyAt (c :: cs) with
    | some w =>
      obtain ⟨d1, d2, rest, a1, a2, a3, a4, a5, _⟩ := tallyAt_some_decomp hat
      exact ⟨[], d1, d2, rest, a1, a2, a3, a4, by simpa using a5⟩
    | none =>
      rw [hat] at h
      obtain ⟨pre, d1, d2, rest, a1, a2, a3, a4, a5⟩ := tallySearch_some_decomp h
      exact ⟨c :: pre, d1, d2, rest, a1, a2, a3, a4, by simp [a5]⟩



theorem intfLineAt_nil (name : List Char) : intfLineAt name [] = none := by
  cases name <;> simp [intfLineAt, List.isPrefixOf]

theorem cmf_succ_of_le (name : List Char) :
    ∀ (f : Nat) (t : List Char), t.length ≤ f →
      countMatchesFuel name (f + 1) t = countMatchesFuel name f t
  | 0, t, h => by
    have ht : t = [] := List.eq_nil_of_length_eq_zero (Nat.le_zero.mp h)
    subst ht; simp [countMatchesFuel]
  | f + 1, [], _ => by simp [countMatchesFuel]
  | f + 1, c :: cs, h => by
    have hcs : cs.length ≤ f := by simpa using h
    cases hat : intfLineAt name (c :: cs) with
    | some k =>
      simp only [countMatchesFuel, hat]
      rw [cmf_succ_of_le name f (cs.drop (k - 1))
        (Nat.le_trans (by simpa using List.length_drop_le (k - 1) cs) hcs)]
    | none =>
      simp only [countMatchesFuel, hat]
      exact cmf_succ_of_le name f cs hcs

theorem cmf_eq_countMatches (name : List Char) (f : Nat) (t : List Char)
    (h : t.length ≤ f) : countMatchesFuel name f t = countMatches name t := by
  induction f with
  | zero =>
    have ht : t = [] := List.eq_nil_of_length_eq_zero (Nat.le_zero.mp h)
    subst ht; rfl
  | succ f ih =>
    rcases Nat.lt_or_ge t.length (f + 1) with hlt | hge
    · have hle : t.length ≤ f := Nat.lt_succ_iff.mp hlt
      rw [cmf_succ_of_le name f t hle]
      exact ih hle
    · have hlen : t.length = f + 1 := Nat.le_antisymm h hge
      rw [countMatches, hlen]

theorem countMatches_nil (name : List Char) : countMatches name [] = 0 := rfl

theorem countMatches_cons_none {name : List Char} {c : Char} {cs : List Char}
    (h : intfLineAt name (c :: cs) = none) :
    countMatches name (c :: cs) = countMatches name cs := by
  show countMatchesFuel name (c :: cs).length (c :: cs) = countMatches name cs
  simp only [List.length_cons, countMatchesFuel, h]
  rfl

theorem countMatches_match_step {name : List Char} {c : Char} {cs : List Char} {k : Nat}
    (h : intfLineAt name (c :: cs) = some k) :
    countMatches name (c :: cs) = 1 + countMatches name (cs.drop (k - 1)) := by
  show countMatchesFuel name (c :: cs).length (c :: cs) = _
  simp only [List.length_cons, countMatchesFuel, h]
  rw [cmf_eq_countMatches name cs.length (cs.drop (k - 1))
    (by simpa using List.length_drop_le (k - 1) cs)]

/-- A listing pattern matches at the start of its exact concatenation
shape, greedily absorbing any further whitespace that follows. -/
theorem intfLineAt_append (name d1 d2 w tail : List Char)
    (h1 : d1 ≠ []) (h2 : ∀ c ∈ d1, Char.isDigit c = true)
    (h3 : d2 ≠ []) (h4 : ∀ c ∈ d2, Char.isDigit c = true)
    (h5 : w ≠ []) (h6 : ∀ c ∈ w, isPySpace c = true) :
    intfLineAt name (name ++ (d1 ++ (['/'] ++ (d2 ++ (w ++ tail)))))
      = some (name.length + d1.length + 1 + d2.length
          + (w.length + (tail.takeWhile isPySpace).length)) := by
  obtain ⟨wh, wt, rfl⟩ := List.exists_cons_of_ne_nil h5
  have hwd : ¬ (Char.isDigit wh = true) := by
    simp [isPySpace_not_digit (h6 wh (by simp))]
  have hnd : ¬ (Char.isDigit '/' = true) := by decide
  have htk1 : (d1 ++ (['/'] ++ (d2 ++ ((wh :: wt) ++ tail)))).takeWhile Char.isDigit = d1 := by
    rw [takeWhile_append_all _ h2]
    simp [List.takeWhile_cons_of_neg hnd]
  have hdr1 : (d1 ++ (['/'] ++ (d2 ++ ((wh :: wt) ++ tail)))).dropWhile Char.isDigit
      = '/' :: (d2 ++ ((wh :: wt) ++ tail)) := by
    rw [dropWhile_append_all _ h2]
    simp [List.dropWhile_cons_of_neg hnd]
  have htk2 : (d2 ++ ((wh :: wt) ++ tail)).takeWhile Char.isDigit = d2 := by
    rw [takeWhile_append_all _ h4]
    simp [List.takeWhile_cons_of_neg hwd]
  have hdr2 : (d2 ++ ((wh :: wt) ++ tail)).dropWhile Char.isDigit = (wh :: wt) ++ tail := by
    rw [dropWhile_append_all _ h4]
    simp [List.dropWhile_cons_of_neg hwd]
  have htkw : ((wh :: wt) ++ tail).takeWhile isPySpace
      = (wh :: wt) ++ tail.takeWhile isPySpace := takeWhile_append_all _ h6
  unfold intfLineAt
  rw [if_pos (isPrefixOf_append_self name _), List.drop_left]
  simp only [htk1, hdr1, if_neg h1, htk2, hdr2, if_neg h3, htkw]
  rw [if_neg (by simp)]
  simp only [Option.some.injEq, List.length_append, List.length_cons]

/-- A successful listing-pattern match decomposes the text at that
position into the exact concatenation shape of the pattern, and the
returned resume offset is the length of the consumed match. -/
theorem intfLineAt_some_decomp {name s : List Char} {k : Nat}
    (h : intfLineAt name s = some k) :
    ∃ d1 d2 w rest, d1 ≠ [] ∧ (∀ c ∈ d1, Char.isDigit c = true) ∧
      d2 ≠ [] ∧ (∀ c ∈ d2, Char.isDigit c = true) ∧
      w ≠ [] ∧ (∀ c ∈ w, isPySpace c = true) ∧
      s = name ++ (d1 ++ (['/'] ++ (d2 ++ (w ++ rest)))) ∧
      k = name.length + d1.length + 1 + d2.length + w.length := by
  unfold intfLineAt at h
  by_cases hp : name.isPrefixOf s = true
  · rw [if_pos hp] at h
    have hs : s = name ++ s.drop name.length := eq_append_of_isPrefixOf hp
    set r1 := s.drop name.length with hr1
    by_cases h1 : r1.takeWhile Char.isDigit = []
    · rw [if_pos h1] at h; cases h
    · rw [if_neg h1] at h
      split at h
      next r3 heq =>
        by_cases h2 : r3.takeWhile Char.isDigit = []
        · rw [if_pos h2] at h; cases h
        · rw [if_neg h2] at h
          by_cases h3 : ((r3.dropWhile Char.isDigit).takeWhile isPySpace) = []
          · rw [if_pos h3] at h; cases h
          · rw [if_neg h3] at h
            refine ⟨r1.takeWhile Char.isDigit, r3.takeWhile Char.isDigit,
              (r3.dropWhile Char.isDigit).takeWhile isPySpace,
              (r3.dropWhile Char.isDigit).dropWhile isPySpace,
              h1, fun c hc => List.mem_takeWhile_imp hc,
              h2, fun c hc => List.mem_takeWhile_imp hc,
              h3, fun c hc => List.mem_takeWhile_imp hc, ?_, ?_⟩
            · rw [hs]
              have e1 : r1.takeWhile Char.isDigit ++ r1.dropWhile Char.isDigit = r1 :=
                List.takeWhile_append_dropWhile Char.isDigit r1
              have e2 : r3.takeWhile Char.isDigit ++ r3.dropWhile Char.isDigit = r3 :=
                List.takeWhile_append_dropWhile Char.isDigit r3
              have e3 : (r3.dropWhile Char.isDigit).takeWhile isPySpace
                  ++ (r3.dropWhile Char.isDigit).dropWhile isPySpace
                  = r3.dropWhile Char.isDigit :=
                List.takeWhile_append_dropWhile isPySpace (r3.dropWhile Char.isDigit)
              rw [e3, e2, List.singleton_append, ← heq, e1]
            · simpa using h.symm
      next hnone => cases h
  · rw [if_neg hp] at h; cases h

theorem intfLineAt_none_of_not_prefixOf {name s : List Char}
    (h : name.isPrefixOf s = false) : intfLineAt name s = none := by
  simp [intfLineAt, h]

/-- If the pattern matches at some position (suffix) of the text, the
scan finds at least one match. -/
theorem countMatches_pos_of_suffix {name : List Char} :
    ∀ {t s : List Char} {k : Nat}, s <:+ t → intfLineAt name s = some k →
      0 < countMatches name t
  | [], s, k, hsuf, h => by
    rw [List.suffix_nil.mp hsuf, intfLineAt_nil] at h
    cases h
  | c :: cs, s, k, hsuf, h => by
    cases hat : intfLineAt name (c :: cs) with
    | some m => rw [countMatches_match_step hat]; omega
    | none =>
      rcases List.suffix_cons_iff.mp hsuf with rfl | hsuf2
      · rw [hat] at h; cases h
      · rw [countMatches_cons_none hat]
        exact countMatches_pos_of_suffix hsuf2 h

/-- A spec-level occurrence forces at least one scanner match. -/
theorem countMatches_pos_of_occ {name t : List Char} (h : SpecIntfOcc name t) :
    0 < countMatches name t := by
  obtain ⟨pre, d1, d2, w, rest, h1, h2, h3, h4, h5, h6, heq⟩ := h
  subst heq
  exact countMatches_pos_of_suffix (List.suffix_append pre _)
    (intfLineAt_append name d1 d2 w rest h1 h2 h3 h4 h5 h6)

/-- Conversely, a scanner match exhibits a spec-level occurrence. -/
theorem occ_of_countMatches_pos {name : List Char} :
    ∀ {t : List Char}, 0 < countMatches name t → SpecIntfOcc name t
  | [], h => by rw [countMatches_nil] at h; cases h
  | c :: cs, h => by
    cases hat : intfLineAt name (c :: cs) with
    | some k =>
      obtain ⟨d1, d2, w, rest, a1, a2, a3, a4, a5, a6, a7, _⟩ := intfLineAt_some_decomp hat
      exact ⟨[], d1, d2, w, rest, a1, a2, a3, a4, a5, a6, by simpa using a7⟩
    | none =>
      rw [countMatches_cons_none hat] at h
      obtain ⟨pre, d1, d2, w, rest, a1, a2, a3, a4, a5, a6, a7⟩ :=
        occ_of_countMatches_pos h
      exact ⟨c :: pre, d1, d2, w, rest, a1, a2, a3, a4, a5, a6, by simp [a7]⟩

theorem hasCRLF_nil : hasCRLF [] = false := rfl

theorem hasCRLF_cons_tail : ∀ {c : Char} {t : List Char},
    hasCRLF (c :: t) = false → hasCRLF t = false
  | _, [], _ => rfl
  | c, c2 :: rest, h => by
    simp only [hasCRLF, Bool.or_eq_false_iff] at h
    exact h.2

/-- Scanning a CR-LF pattern may skip any segment free of CR-LF pairs,
provided the following text does not begin with an LF (so no pair is
created at the junction either). -/
theorem countMatches_skip (nm : List Char) :
    ∀ (seg r : List Char), hasCRLF seg = false → r.head? ≠ some '\x0a' →
      countMatches ('\x0d' :: '\x0a' :: nm) (seg ++ r)
        = countMatches ('\x0d' :: '\x0a' :: nm) r
  | [], r, _, _ => by rw [List.nil_append]
  | c :: seg, r, hseg, hr => by
    have hnone : intfLineAt ('\x0d' :: '\x0a' :: nm) ((c :: seg) ++ r) = none := by
      apply intfLineAt_none_of_not_prefixOf
      rw [List.cons_append]
      by_cases hc : c = '\x0d'
      · subst hc
        have hlf : ∀ x rest2, seg ++ r = x :: rest2 → x ≠ '\x0a' := by
          intro x rest2 hx
          cases seg with
          | nil =>
            intro hxa
            rw [List.nil_append] at hx
            exact hr (by rw [hx, hxa]; rfl)
          | cons c2 seg2 =>
            intro hxa
            rw [List.cons_append] at hx
            cases hx
            simp only [hasCRLF, Bool.or_eq_false_iff, Bool.and_eq_false_iff] at hseg
            rcases hseg.1 with hbad | hbad
            · simp at hbad
            · simp [hxa] at hbad
        cases hsr : seg ++ r with
        | nil => simp [List.isPrefixOf]
        | cons x rest2 =>
          have hx := hlf x rest2 hsr
          have hbx : ('\x0a' == x) = false := beq_eq_false_iff_ne.mpr (Ne.symm hx)
          simp [List.isPrefixOf, hbx]
      · simp [List.isPrefixOf, hc, Ne.symm hc]
    rw [List.cons_append, countMatches_cons_none (by rw [← List.cons_append]; exact hnone)]
    exact countMatches_skip nm seg r (hasCRLF_cons_tail hseg) hr

theorem patOf_eth : ethIntfPat = patOf IntfKind.eth := by decide

theorem patOf_ser : serIntfPat = patOf IntfKind.ser := by decide

theorem patOf_def (k : IntfKind) : patOf k = '\x0d' :: '\x0a' :: kindText k := rfl

theorem kindText_eth_cons : kindText IntfKind.eth = 'E' :: "thernet".toList := by decide

theorem kindText_ser_cons : kindText IntfKind.ser = 'S' :: "erial".toList := by decide

theorem kindText_no_cr (k : IntfKind) : ∀ c ∈ kindText k, c ≠ '\x0d' := by
  cases k <;> decide

theorem kindText_not_prefixOf {k k2 : IntfKind} (h : k ≠ k2) (X : List Char) :
    (kindText k).isPrefixOf (kindText k2 ++ X) = false := by
  cases k <;> cases k2
  · exact absurd rfl h
  · rw [kindText_eth_cons, kindText_ser_cons, List.cons_append]
    simp [List.isPrefixOf, (by decide : ('E' == 'S') = false)]
  · rw [kindText_ser_cons, kindText_eth_cons, List.cons_append]
    simp [List.isPrefixOf, (by decide : ('S' == 'E') = false)]
  · exact absurd rfl h

theorem noCR_append_hasCRLF :
    ∀ {x : List Char} {y : List Char}, (∀ c ∈ x, c ≠ '\x0d') → hasCRLF y = false →
      hasCRLF (x ++ y) = false
  | [], y, _, hy => by simpa using hy
  | c :: x, y, h, hy => by
    have hc : c ≠ '\x0d' := h c (by simp)
    have ih := noCR_append_hasCRLF (x := x) (fun d hd => h d (by simp [hd])) hy
    rw [List.cons_append]
    cases hxy : x ++ y with
    | nil => simp [hasCRLF]
    | cons z zs =>
      rw [hxy] at ih
      simp only [hasCRLF, Bool.or_eq_false_iff, Bool.and_eq_false_iff]
      exact ⟨Or.inl (beq_eq_false_iff_ne.mpr hc), ih⟩

theorem hasCRLF_dropWhile {p : Char → Bool} :
    ∀ {l : List Char}, hasCRLF l = false → hasCRLF (l.dropWhile p) = false
  | [], _ => rfl
  | c :: l, h => by
    by_cases hc : p c = true
    · rw [List.dropWhile_cons_of_pos hc]
      exact hasCRLF_dropWhile (hasCRLF_cons_tail h)
    · rw [List.dropWhile_cons_of_neg (by simpa using hc)]
      exact h

theorem countMatches_match_step' {name s : List Char} {k : Nat}
    (hs : s ≠ []) (hk : 1 ≤ k) (h : intfLineAt name s = some k) :
    countMatches name s = 1 + countMatches name (s.drop k) := by
  obtain ⟨c, cs, rfl⟩ := List.exists_cons_of_ne_nil hs
  rw [countMatches_match_step h]
  congr 1
  obtain ⟨k2, rfl⟩ := Nat.exists_eq_add_of_le hk
  simp [Nat.add_comm 1 k2]

/-- At a line of the scanned kind, the scan counts one match and resumes
after the greedily consumed whitespace. -/
theorem countMatches_line_match (l : IntfLine) (hl : goodLine l) (tail : List Char) :
    countMatches (patOf l.kind) (lineText l ++ tail)
      = 1 + countMatches (patOf l.kind) (tail.dropWhile isPySpace) := by
  obtain ⟨s1, s2, s3, s4, s5, s6, s7⟩ := hl
  have hmatch := intfLineAt_append (patOf l.kind) l.slot l.port l.ws tail s1 s2 s3 s4 s5 s6
  have hshape : lineText l ++ tail
      = patOf l.kind ++ (l.slot ++ (['/'] ++ (l.port ++ (l.ws ++ tail)))) := by
    simp [lineText, List.append_assoc]
  rw [hshape]
  rw [countMatches_match_step' (by simp [patOf_def]) (by omega) hmatch]
  congr 1
  have hK : (patOf l.kind).length + l.slot.length + 1 + l.port.length
      + (l.ws.length + (tail.takeWhile isPySpace).length)
      = (patOf l.kind).length + (l.slot.length + ((['/'] : List Char).length
        + (l.port.length + (l.ws.length + (tail.takeWhile isPySpace).length)))) := by
    simp
    omega
  rw [hK, drop_append_length, drop_append_length, drop_append_length,
    drop_append_length, drop_append_length, drop_takeWhile_length]

theorem patOf_not_prefixOf {k k2 : IntfKind} (h : k2 ≠ k) (X : List Char) :
    (patOf k).isPrefixOf ('\x0d' :: '\x0a' :: (kindText k2 ++ X)) = false := by
  rw [patOf_def]
  simp only [List.isPrefixOf, beq_self_eq_true, Bool.true_and]
  exact kindText_not_prefixOf (fun he => h he.symm) X

/-- At a line of the other kind, no match starts anywhere inside the
line or its following CR-LF-free filler, so the scan moves past both. -/
theorem countMatches_line_skip (k : IntfKind) (l : IntfLine) (hl : goodLine l)
    (hk : l.kind ≠ k) (b r : List Char) (hb : hasCRLF b = false)
    (hr : r.head? ≠ some '\x0a') :
    countMatches (patOf k) (lineText l ++ (b ++ r)) = countMatches (patOf k) r := by
  obtain ⟨s1, s2, s3, s4, s5, s6, s7⟩ := hl
  have hshape : lineText l ++ (b ++ r)
      = '\x0d' :: (('\x0a' :: (kindText l.kind
          ++ (l.slot ++ (['/'] ++ (l.port ++ (l.ws ++ b)))))) ++ r) := by
    simp [lineText, patOf_def, List.append_assoc]
  have h0 : intfLineAt (patOf k) (lineText l ++ (b ++ r)) = none := by
    apply intfLineAt_none_of_not_prefixOf
    rw [hshape]
    have hflat : (('\x0a' :: (kindText l.kind
        ++ (l.slot ++ (['/'] ++ (l.port ++ (l.ws ++ b)))))) ++ r)
        = '\x0a' :: (kindText l.kind
          ++ ((l.slot ++ (['/'] ++ (l.port ++ (l.ws ++ b)))) ++ r)) := by
      simp [List.append_assoc]
    rw [hflat]
    exact patOf_not_prefixOf hk _
  have hseg : hasCRLF ('\x0a' :: (kindText l.kind
      ++ (l.slot ++ (['/'] ++ (l.port ++ (l.ws ++ b)))))) = false := by
    have hx : ∀ c ∈ '\x0a' :: (kindText l.kind
        ++ (l.slot ++ (['/'] ++ (l.port ++ l.ws)))), c ≠ '\x0d' := by
      intro c hc
      simp at hc
      rcases hc with rfl | hkt | hsl | rfl | hpt | hws
      · decide
      · exact kindText_no_cr l.kind c hkt
      · exact digit_ne_cr (s2 c hsl)
      · decide
      · exact digit_ne_cr (s4 c hpt)
      · exact s7 c hws
    have := noCR_append_hasCRLF hx hb
    simpa [List.append_assoc] using this
  rw [hshape]
  have step : countMatches (patOf k) ('\x0d' :: (('\x0a' :: (kindText l.kind
      ++ (l.slot ++ (['/'] ++ (l.port ++ (l.ws ++ b)))))) ++ r))
      = countMatches (patOf k) ((('\x0a' :: (kindText l.kind
      ++ (l.slot ++ (['/'] ++ (l.port ++ (l.ws ++ b)))))) ++ r)) := by
    apply countMatches_cons_none
    rw [← hshape]
    exact h0
  rw [step, patOf_def]
  exact countMatches_skip (kindText k) _ r hseg hr

theorem sepOK_cons {l : IntfLine} {b : List Char}
    {rest : List (IntfLine × List Char)} (h : sepOK ((l, b) :: rest)) :
    goodLine l ∧ hasCRLF b = false ∧ sepOK rest ∧
      (rest ≠ [] → b.any (fun c => !isPySpace c) = true) := by
  obtain ⟨hall, hdl⟩ := h
  refine ⟨(hall (l, b) (by simp)).1, (hall (l, b) (by simp)).2,
    ⟨fun x hx => hall x (by simp [hx]), fun x hx => ?_⟩, fun hne => ?_⟩
  · apply hdl
    cases rest with
    | nil => simp at hx
    | cons r0 rs =>
      have hstep : ((l, b) :: r0 :: rs).dropLast = (l, b) :: (r0 :: rs).dropLast := rfl
      rw [hstep]
      exact List.mem_cons_of_mem _ hx
  · obtain ⟨r0, rs, rfl⟩ := List.exists_cons_of_ne_nil hne
    have hstep : ((l, b) :: r0 :: rs).dropLast = (l, b) :: (r0 :: rs).dropLast := rfl
    exact hdl (l, b) (by rw [hstep]; simp)

theorem renderItems_head_ne_lf :
    ∀ (items : List (IntfLine × List Char)), (renderItems items).head? ≠ some '\x0a'
  | [] => by simp [renderItems]
  | (l, b) :: rest => by
    simp [renderItems, lineText, patOf_def]

/-- Core counting identity: on a text built from well-separated interface
lines, the scan for kind `k` counts exactly the lines of kind `k`. -/
theorem countMatches_renderItems (k : IntfKind) :
    ∀ (items : List (IntfLine × List Char)), sepOK items →
      countMatches (patOf k) (renderItems items) = countKind k items
  | [], _ => rfl
  | (l, b) :: rest, hsep => by
    obtain ⟨hgl, hb, hrest, hbns⟩ := sepOK_cons hsep
    have hrender : renderItems ((l, b) :: rest) = lineText l ++ (b ++ renderItems rest) := rfl
    have hcount : countKind k ((l, b) :: rest)
        = (if l.kind = k then 1 else 0) + countKind k rest := rfl
    rw [hrender, hcount]
    by_cases hk : l.kind = k
    · subst hk
      rw [countMatches_line_match l hgl (b ++ renderItems rest), if_pos rfl]
      cases rest with
      | nil =>
        simp only [renderItems, List.append_nil, countKind]
        have hskip := countMatches_skip (kindText l.kind) (b.dropWhile isPySpace) []
          (hasCRLF_dropWhile hb) (by simp)
        rw [List.append_nil] at hskip
        rw [patOf_def, hskip]
        rfl
      | cons r0 rs =>
        have hany := hbns (by simp)
        rw [dropWhile_append_of_nonmatch _ hany]
        have hskip := countMatches_skip (kindText l.kind) (b.dropWhile isPySpace)
          (renderItems (r0 :: rs)) (hasCRLF_dropWhile hb) (renderItems_head_ne_lf (r0 :: rs))
        rw [patOf_def, hskip, ← patOf_def]
        rw [countMatches_renderItems l.kind (r0 :: rs) hrest]
    · rw [countMatches_line_skip k l hgl hk b (renderItems rest) hb
        (renderItems_head_ne_lf rest)]
      rw [countMatches_renderItems k rest hrest, if_neg hk, Nat.zero_add]



/-! ### Claim theorems -/

/-- C1: `validate` succeeds if and only if the tally and the listing agree
componentwise; any disagreement in either dimension yields a failure
value, never `passed`. -/
theorem validate_passed_iff (e s e2 s2 : Nat) :
    validate (e, s) (e2, s2) = VerifyResult.passed ↔ (e = e2 ∧ s = s2) := by
  simp only [validate]
  constructor
  · intro h
    by_cases h1 : e2 = e
    · by_cases h2 : s2 = s
      · exact ⟨h1.symm, h2.symm⟩
      · rw [if_pos h1, if_neg h2] at h; cases h
    · rw [if_neg h1] at h; cases h
  · rintro ⟨rfl, rfl⟩
    simp

/-- C2 counterexample: containing the rendered substring for `(1, 2)` does
not force the result `(1, 2)` — a digit directly before the occurrence
extends the leftmost match, which here parses `(11, 2)` instead. -/
theorem extractTally_containment_insufficient :
    "11 Ethernet interfaces\r\n2 Serial interfaces\r\n".toList
      = ['1'] ++ "1 Ethernet interfaces\r\n2 Serial interfaces\r\n".toList
    ∧ extractTally "11 Ethernet interfaces\r\n2 Serial interfaces\r\n".toList
        = Except.ok (11, 2)
    ∧ ((11, 2) : Nat × Nat) ≠ (1, 2) := by
  refine ⟨rfl, rfl, by decide⟩

/-- C2 (amended): on a text that embeds the rendered summary blob for
`e` and `s` at a position before which no occurrence of the summary
pattern starts, `extractTally` returns exactly `(e, s)`. -/
theorem extractTally_embedded_blob (pre d1 d2 suf : List Char) (e s : Nat)
    (h1 : d1 ≠ []) (h2 : ∀ c ∈ d1, Char.isDigit c = true)
    (h3 : d2 ≠ []) (h4 : ∀ c ∈ d2, Char.isDigit c = true)
    (h5 : digitsToNat d1 = e) (h6 : digitsToNat d2 = s)
    (h7 : ∀ l1 l2, pre = l1 ++ l2 → l2 ≠ [] →
      tallyAt (l2 ++ (d1 ++ (ethLit ++ (d2 ++ (serLit ++ suf))))) = none) :
    extractTally (pre ++ (d1 ++ (ethLit ++ (d2 ++ (serLit ++ suf)))))
      = Except.ok (e, s) := by
  subst h5 h6
  have hsearch : tallySearch (pre ++ (d1 ++ (ethLit ++ (d2 ++ (serLit ++ suf)))))
      = some (digitsToNat d1, digitsToNat d2) := by
    rw [tallySearch_append_none h7]
    exact tallySearch_of_head (tallyAt_blob d1 d2 suf h1 h2 h3 h4)
  show extract_interface_count _ = _
  rw [extract_interface_count, hsearch]

theorem extractTally_embedded_blob_witness :
    extractTally (([] : List Char) ++ (['4'] ++ (ethLit ++ (['2'] ++ (serLit ++ [])))))
      = Except.ok (4, 2) :=
  extractTally_embedded_blob [] ['4'] ['2'] [] 4 2 (by decide) (by decide)
    (by decide) (by decide) (by decide) (by decide)
    (fun _ l2 h hne => absurd (List.append_eq_nil.mp h.symm).2 hne)

/-- C10: `re.search` semantics are leftmost-match: if no position inside
the prefix `pre` matches and the pattern matches at the start of `rest`,
the returned tally is the one parsed there — whatever occurrences `rest`
may contain further on have no effect. -/
theorem extractTally_leftmost (pre rest : List Char) (v : Nat × Nat)
    (h1 : ∀ l1 l2, pre = l1 ++ l2 → l2 ≠ [] → tallyAt (l2 ++ rest) = none)
    (h2 : tallyAt rest = some v) :
    extractTally (pre ++ rest) = Except.ok v := by
  show extract_interface_count _ = _
  rw [extract_interface_count, tallySearch_append_none h1, tallySearch_of_head h2]

theorem extractTally_leftmost_witness :
    extractTally (['x'] ++ ("7 Ethernet interfaces\r\n3 Serial interfaces\r\n9 Ethernet interfaces\r\n5 Serial interfaces\r\n".toList))
      = Except.ok (7, 3) := by
  apply extractTally_leftmost
  · intro l1 l2 h hne
    rcases l1 with _ | ⟨a, as⟩
    · have hl2 : l2 = ['x'] := by simpa using h.symm
      rw [hl2]
      rfl
    · rw [List.cons_append] at h
      injection h with hx ht
      exact absurd (List.append_eq_nil.mp ht.symm).2 hne
  · rfl

/-- C4: when the text contains no occurrence of the summary pattern,
`extractTally` reports a `ParseFailure` rather than any default value. -/
theorem extractTally_parse_failure (t : List Char) (h : ¬ SpecHasTally t) :
    extractTally t = Except.error ParseFailure.patternAbsent := by
  show extract_interface_count t = _
  cases hs : tallySearch t with
  | none => rw [extract_interface_count, hs]
  | some v =>
    obtain ⟨pre, d1, d2, rest, a1, a2, a3, a4, a5⟩ := tallySearch_some_decomp hs
    exact absurd ⟨pre, d1, d2, rest, a1, a2, a3, a4, a5⟩ h

theorem extractTally_parse_failure_witness :
    ¬ SpecHasTally "no serial line here".toList
    ∧ extractTally "no serial line here".toList
        = Except.error ParseFailure.patternAbsent := by
  have hn : ¬ SpecHasTally "no serial line here".toList := by
    rintro ⟨pre, d1, d2, rest, h1, _, h3, _, heq⟩
    have hlen := congrArg List.length heq
    have hd1 : 0 < d1.length := List.length_pos.mpr h1
    have hd2 : 0 < d2.length := List.length_pos.mpr h3
    have he : ethLit.length = 22 := by decide
    have hs : serLit.length = 20 := by decide
    have ht : "no serial line here".toList.length = 19 := by decide
    simp only [List.length_append, he, hs, ht] at hlen
    omega
  exact ⟨hn, extractTally_parse_failure _ hn⟩

/-- C5: `extractListing` is total by construction (it is a plain function
into pairs of counts), and on a text with no occurrence of either listing
pattern it returns `(0, 0)`. -/
theorem extractListing_total_zero (t : List Char)
    (h1 : ¬ SpecIntfOcc ethIntfPat t) (h2 : ¬ SpecIntfOcc serIntfPat t) :
    extractListing t = (0, 0) := by
  have he : countMatches ethIntfPat t = 0 := by
    by_contra hne
    exact h1 (occ_of_countMatches_pos (Nat.pos_of_ne_zero hne))
  have hs : countMatches serIntfPat t = 0 := by
    by_contra hne
    exact h2 (occ_of_countMatches_pos (Nat.pos_of_ne_zero hne))
  rw [extractListing, he, hs]

theorem extractListing_total_zero_witness :
    ¬ SpecIntfOcc ethIntfPat "short".toList
    ∧ ¬ SpecIntfOcc serIntfPat "short".toList
    ∧ extractListing "short".toList = (0, 0) := by
  have he : ethIntfPat.length = 10 := by decide
  have hs : serIntfPat.length = 8 := by decide
  have ht : "short".toList.length = 5 := by decide
  have hn1 : ¬ SpecIntfOcc ethIntfPat "short".toList := by
    rintro ⟨pre, d1, d2, w, rest, h1, _, h3, _, h5, _, heq⟩
    have hlen := congrArg List.length heq
    have hd1 : 0 < d1.length := List.length_pos.mpr h1
    have hd2 : 0 < d2.length := List.length_pos.mpr h3
    have hw : 0 < w.length := List.length_pos.mpr h5
    simp only [List.length_append, List.length_cons, he, ht] at hlen
    omega
  have hn2 : ¬ SpecIntfOcc serIntfPat "short".toList := by
    rintro ⟨pre, d1, d2, w, rest, h1, _, h3, _, h5, _, heq⟩
    have hlen := congrArg List.length heq
    have hd1 : 0 < d1.length := List.length_pos.mpr h1
    have hd2 : 0 < d2.length := List.length_pos.mpr h3
    have hw : 0 < w.length := List.length_pos.mpr h5
    simp only [List.length_append, List.length_cons, hs, ht] at hlen
    omega
  exact ⟨hn1, hn2, extractListing_total_zero _ hn1 hn2⟩

/-- C3 counterexample: a text consisting of two well-formed Ethernet
lines whose first line is followed only by whitespace yields the listing
`(1, 0)`, not `(2, 0)` — the greedy trailing `\s+` of the first match
consumes the CR-LF the second occurrence needs, so the second is lost. -/
theorem extractListing_adjacent_lines_lost :
    renderItems [(IntfLine.mk IntfKind.eth ['1'] ['1'] [' '], []),
                 (IntfLine.mk IntfKind.eth ['2'] ['2'] [' '], ['x'])]
      = "\r\nEthernet1/1 \r\nEthernet2/2 x".toList
    ∧ goodLine (IntfLine.mk IntfKind.eth ['1'] ['1'] [' '])
    ∧ goodLine (IntfLine.mk IntfKind.eth ['2'] ['2'] [' '])
    ∧ countKind IntfKind.eth
        [(IntfLine.mk IntfKind.eth ['1'] ['1'] [' '], []),
         (IntfLine.mk IntfKind.eth ['2'] ['2'] [' '], ['x'])] = 2
    ∧ countKind IntfKind.ser
        [(IntfLine.mk IntfKind.eth ['1'] ['1'] [' '], []),
         (IntfLine.mk IntfKind.eth ['2'] ['2'] [' '], ['x'])] = 0
    ∧ extractListing "\r\nEthernet1/1 \r\nEthernet2/2 x".toList = (1, 0)
    ∧ ((1, 0) : Nat × Nat) ≠ (2, 0) :=
  ⟨by decide, by decide, by decide, rfl, rfl, by rfl, by decide⟩

/-- C3 (amended): `extractListing` counts exactly the interface lines of
each kind, for any interleaving and any other content, provided the other
content contains no CR-LF pair and every filler standing between two
lines contains a non-whitespace character. -/
theorem extractListing_render_counts (b0 : List Char)
    (items : List (IntfLine × List Char))
    (hb0 : hasCRLF b0 = false) (hsep : sepOK items) :
    extractListing (b0 ++ renderItems items)
      = (countKind IntfKind.eth items, countKind IntfKind.ser items) := by
  have he : countMatches ethIntfPat (b0 ++ renderItems items)
      = countKind IntfKind.eth items := by
    rw [patOf_eth, patOf_def]
    rw [countMatches_skip (kindText IntfKind.eth) b0 (renderItems items) hb0
      (renderItems_head_ne_lf items)]
    rw [← patOf_def]
    exact countMatches_renderItems IntfKind.eth items hsep
  have hs : countMatches serIntfPat (b0 ++ renderItems items)
      = countKind IntfKind.ser items := by
    rw [patOf_ser, patOf_def]
    rw [countMatches_skip (kindText IntfKind.ser) b0 (renderItems items) hb0
      (renderItems_head_ne_lf items)]
    rw [← patOf_def]
    exact countMatches_renderItems IntfKind.ser items hsep
  rw [extractListing, he, hs]

theorem extractListing_render_counts_witness :
    extractListing ("Interface table".toList
        ++ renderItems [(IntfLine.mk IntfKind.eth ['0'] ['0'] [' '], "up x".toList),
                        (IntfLine.mk IntfKind.ser ['2'] ['1'] [' '], "down".toList)])
      = (1, 1) :=
  (extractListing_render_counts "Interface table".toList
    [(IntfLine.mk IntfKind.eth ['0'] ['0'] [' '], "up x".toList),
     (IntfLine.mk IntfKind.ser ['2'] ['1'] [' '], "down".toList)]
    (by decide) (by decide)).trans (by decide)

/-- C6 counterexample: when both dimensions mismatch (tally `(1, 2)`
against listing `(3, 4)`), the result reports only the ethernet mismatch;
the serial mismatch is not reported as a distinct fact — the source
aborts at the first assert. -/
theorem validate_both_mismatch_single_report :
    validate (1, 2) (3, 4) = VerifyResult.ethMismatch 3 1
    ∧ (1 : Nat) ≠ 3 ∧ (2 : Nat) ≠ 4
    ∧ reportsSerialMismatch (validate (1, 2) (3, 4)) = false := by
  refine ⟨by decide, by decide, by decide, by decide⟩

/-- C6 (amended): whenever `validate` fails it fails with a mismatch
value that identifies one dimension and carries both observed values for
that dimension; the ethernet dimension is checked first, so when both
mismatch only the ethernet mismatch is reported. -/
theorem validate_failure_report (e s e2 s2 : Nat)
    (h : validate (e, s) (e2, s2) ≠ VerifyResult.passed) :
    (e ≠ e2 ∧ validate (e, s) (e2, s2) = VerifyResult.ethMismatch e2 e)
    ∨ (e = e2 ∧ s ≠ s2 ∧ validate (e, s) (e2, s2) = VerifyResult.serMismatch s2 s) := by
  by_cases h1 : e2 = e
  · by_cases h2 : s2 = s
    · exact absurd (by simp [validate, h1, h2]) h
    · right
      exact ⟨h1.symm, fun hss => h2 hss.symm, by simp [validate, h1, h2]⟩
  · left
    exact ⟨fun hee => h1 hee.symm, by simp [validate, h1]⟩

theorem validate_failure_report_witness :
    ((1 : Nat) ≠ 3 ∧ validate (1, 2) (3, 4) = VerifyResult.ethMismatch 3 1)
    ∨ ((1 : Nat) = 3 ∧ (2 : Nat) ≠ 4 ∧ validate (1, 2) (3, 4) = VerifyResult.serMismatch 4 2) :=
  validate_failure_report 1 2 3 4 (by decide)

/-- C7: parsing is a pure, deterministic function of the input text: in
this embedding both extraction operations are plain functions, so
re-applying either to the same blob yields an identical result. -/
theorem parsing_deterministic (t : List Char) :
    extractTally t = extractTally t ∧ extractListing t = extractListing t :=
  ⟨rfl, rfl⟩

/-- C8: with the source's default tally values 0 and 0 (used when the
extraction step stored nothing), verification passes exactly when the
listing text contains no Ethernet-pattern and no Serial-pattern
occurrence. -/
theorem verify_default_zero_iff (t : List Char) :
    verify_interface_count t 0 0 = VerifyResult.passed
      ↔ (¬ SpecIntfOcc ethIntfPat t ∧ ¬ SpecIntfOcc serIntfPat t) := by
  constructor
  · intro h
    by_cases h1 : countMatches ethIntfPat t = 0
    · by_cases h2 : countMatches serIntfPat t = 0
      · constructor
        · intro hocc
          exact absurd h1 (Nat.ne_of_gt (countMatches_pos_of_occ hocc))
        · intro hocc
          exact absurd h2 (Nat.ne_of_gt (countMatches_pos_of_occ hocc))
      · rw [verify_interface_count, if_pos h1, if_neg h2] at h
        cases h
    · rw [verify_interface_count, if_neg h1] at h
      cases h
  · rintro ⟨hn1, hn2⟩
    have h1 : countMatches ethIntfPat t = 0 := by
      by_contra hne
      exact hn1 (occ_of_countMatches_pos (Nat.pos_of_ne_zero hne))
    have h2 : countMatches serIntfPat t = 0 := by
      by_contra hne
      exact hn2 (occ_of_countMatches_pos (Nat.pos_of_ne_zero hne))
    rw [verify_interface_count, if_pos h1, if_pos h2]

/-- C9: the ethernet assertion strictly precedes the serial comparison:
when the ethernet counts differ, the step fails with the ethernet
mismatch and its outcome does not depend on the serial tally at all. -/
theorem verify_eth_first (t : List Char) (e s s2 : Nat)
    (h : countMatches ethIntfPat t ≠ e) :
    verify_interface_count t e s
        = VerifyResult.ethMismatch (countMatches ethIntfPat t) e
    ∧ verify_interface_count t e s = verify_interface_count t e s2 := by
  rw [verify_interface_count, if_neg h, verify_interface_count, if_neg h]
  exact ⟨rfl, rfl⟩

theorem verify_eth_first_witness :
    verify_interface_count [] 1 0
        = VerifyResult.ethMismatch (countMatches ethIntfPat []) 1
    ∧ verify_interface_count [] 1 0 = verify_interface_count [] 1 5 :=
  verify_eth_first [] 1 0 5 (by decide)
